import Mathlib

/-!
Verification of `buildbot/changes/svnpoller.py` (class `SvnSource`).

The poller's pure pipeline stages are shallowly embedded below; Python
strings are modelled character-wise (`String.data`), Python slicing /
`startswith` / `split` / `join` by the `py*` helpers, Python exceptions by
`Except` / option results, and the `svn` subprocess boundary by explicit
inputs (the extracted `<root>` text, the parsed `<logentry>` records).
-/

/-- Python `s.startswith(pre)` (character-wise, as on `str`). -/
def pyStartswith (s pre : String) : Bool :=
  pre.data.isPrefixOf s.data

/-- Python `s[n:]` (drop the first `n` characters). -/
def pyDrop (s : String) (n : Nat) : String :=
  ⟨s.data.drop n⟩

/-- Python `len(s)` (number of characters). -/
def pyLen (s : String) : Nat :=
  s.data.length

/-- `if x.startswith("/"): x = x[1:]` — the single-leading-separator strip
used by `_determine_prefix_2`, `_transform_path` and `_create_changes`. -/
def stripLeadingSlash (s : String) : String :=
  if pyStartswith s "/" then pyDrop s 1 else s

/-- Python `s.split(sep)` on the character list: always returns at least
one (possibly empty) piece, exactly like `str.split` with an explicit
separator. -/
def splitChar (sep : Char) : List Char → List (List Char)
  | [] => [[]]
  | c :: rest =>
    match splitChar sep rest with
    | [] => [[]]
    | g :: gs => if c = sep then [] :: g :: gs else (c :: g) :: gs

/-- Python `path.split('/')`-style split of a string. -/
def pySplit (s : String) (sep : Char) : List String :=
  (splitChar sep s.data).map fun l => ⟨l⟩

/-- Python `sep.join(pieces)`. -/
def pyJoin (sep : String) : List String → String
  | [] => ""
  | [x] => x
  | x :: xs => x ++ sep ++ pyJoin sep xs

/-- One `<logentry>` element as consumed by the poller: the `revision`
attribute (already `int(...)`-parsed), the `author` and `msg` texts, the
raw `date` text, and the `<path>` texts under `<paths>`.  The
`time.strptime`/`time.mktime` timestamp conversion is kept as the raw
date string (no claim concerns it). -/
structure LogEntry where
  revision : Nat
  author : String
  msg : String
  date : String
  paths : List String
deriving DecidableEq

/-- The loop body of `SvnSource._filter_new_logentries`:
`for el in logentries: if last_change == int(el.getAttribute("revision")): break;
new_logentries.append(el)`. -/
def collect_new (last_change : Nat) : List LogEntry → List LogEntry
  | [] => []
  | el :: rest =>
    if last_change = el.revision then []
    else el :: collect_new last_change rest

/-- `SvnSource._filter_new_logentries(logentries, last_change)`: returns
`(new_last_change, new_logentries)`.  Note that the empty-input branch of
the source returns the literal `(None, [])`, not `(last_change, [])`. -/
def filter_new_logentries (logentries : List LogEntry) (last_change : Option Nat) :
    Option Nat × List LogEntry :=
  match logentries with
  | [] => (none, [])
  | first :: rest =>
    let mostRecent := first.revision
    match last_change with
    | none => (some mostRecent, [])
    | some lc =>
      if lc = mostRecent then (some mostRecent, [])
      else (some mostRecent, (collect_new lc (first :: rest)).reverse)

/-- `SvnSource._get_new_logentries`: runs the filter on the current
`self.last_change` and stores the returned watermark back into
`self.last_change`; the first component is the stored watermark, the
second the entries handed to `_create_changes`. -/
def get_new_logentries (last_change : Option Nat) (logentries : List LogEntry) :
    Option Nat × List LogEntry :=
  filter_new_logentries logentries last_change

/-- The watermark after a sequence of poll cycles, each cycle described by
the `<logentry>` list its log query returned; `self.last_change` starts
as the class default `None`. -/
def run_poller (cycles : List (List LogEntry)) : Option Nat :=
  cycles.foldl (fun st entries => (get_new_logentries st entries).1) none

/-- Demo entries used by concrete evaluations. -/
def e3demo : LogEntry := ⟨3, "a", "m", "d", []⟩

def e5demo : LogEntry := ⟨5, "a", "m", "d", []⟩

def e10demo : LogEntry := ⟨10, "a", "m", "d", []⟩

/-- C2 counterexample: with an integer watermark `5` already set, the
filter applied to an empty entry list does not return `(some 5, [])` —
the source's empty branch returns `(None, [])`, resetting the watermark. -/
theorem c2_counterexample :
    filter_new_logentries [] (some 5) ≠ (some 5, ([] : List LogEntry)) := by
  decide

/-- C2 amended: for every prior watermark `w` (none or any integer), the
filter applied to an empty sequence of log entries returns `(none, [])`:
it yields no entries but resets any integer watermark to none, rather
than leaving the watermark unchanged. -/
theorem c2_amended (w : Option Nat) :
    filter_new_logentries [] w = (none, []) := by
  rfl

/-- C4: on a non-empty newest-first entry list with watermark `none`, the
filter emits no entries and sets the watermark to the newest (first)
entry's revision, so the first successful poll never emits changes. -/
theorem c4_first_poll (e : LogEntry) (rest : List LogEntry) :
    filter_new_logentries (e :: rest) none = (some e.revision, []) := by
  rfl

/-- When the head is newest (all later revisions strictly below it), no
entry of the list has a revision strictly above the head's. -/
lemma filter_gt_head_eq_nil (e : LogEntry) (rest : List LogEntry)
    (hrel : ∀ b ∈ rest, b.revision < e.revision) :
    (e :: rest).filter (fun x => decide (e.revision < x.revision)) = [] := by
  rw [List.filter_eq_nil_iff]
  intro x hx
  rcases List.mem_cons.mp hx with h | h
  · subst h
    simp
  · simp only [decide_eq_true_eq]
    exact not_lt_of_gt (hrel x h)

/-- On a strictly-decreasing entry list containing the watermark among its
revisions, the collect-until-watermark loop of `_filter_new_logentries`
collects exactly the entries strictly newer than the watermark. -/
lemma collect_new_eq_filter (l : List LogEntry) (w : Nat)
    (hsorted : l.Pairwise fun a b => b.revision < a.revision)
    (hmem : w ∈ l.map LogEntry.revision) :
    collect_new w l = l.filter fun x => decide (w < x.revision) := by
  induction l with
  | nil => simp at hmem
  | cons e rest ih =>
    rw [List.pairwise_cons] at hsorted
    obtain ⟨hrel, hpw⟩ := hsorted
    by_cases he : w = e.revision
    · subst he
      rw [collect_new, if_pos rfl, filter_gt_head_eq_nil e rest hrel]
    · have hmem' : w ∈ rest.map LogEntry.revision := by
        rcases List.mem_map.mp hmem with ⟨x, hx, hxw⟩
        rcases List.mem_cons.mp hx with h | h
        · exact absurd hxw.symm (by simpa [h] using he)
        · exact List.mem_map.mpr ⟨x, h, hxw⟩
      have hlt : w < e.revision := by
        rcases List.mem_map.mp hmem' with ⟨x, hx, hxw⟩
        exact hxw ▸ hrel x hx
      rw [collect_new, if_neg he, ih hpw hmem', List.filter_cons_of_pos]
      simpa using hlt

/-- C1 counterexample: starting from the class default `last_change = None`,
one cycle whose log query returns a single revision-5 entry sets the
watermark to 5, and a following cycle whose log query returns an empty
entry list resets it to `None` — the watermark, once set, is unset again.
Moreover, with watermark 5 and a fetched window `[rev 10, rev 3]` that does
not contain revision 5, the entry with revision 3 ≤ 5 is emitted. -/
theorem c1_counterexample :
    run_poller [[e5demo]] = some 5 ∧
    run_poller [[e5demo], []] = none ∧
    e3demo ∈ (filter_new_logentries [e10demo, e3demo] (some 5)).2 ∧
    e3demo.revision ≤ 5 := by
  decide

/-- C1 amended: on a cycle whose log query returns a non-empty entry list,
the watermark is set to the newest (first) fetched revision, so it never
moves backward across cycles whose newest fetched revision is at least the
current watermark; and when the fetched revisions are strictly decreasing
and contain the watermark, every emitted entry is strictly newer than the
watermark.  (A cycle with an empty log result resets the watermark to
none, and a watermark absent from the fetched window lets entries at or
below it be emitted — see the counterexample.) -/
theorem c1_amended (e : LogEntry) (rest : List LogEntry) (w : Nat)
    (hmono : w ≤ e.revision) :
    (filter_new_logentries (e :: rest) (some w)).1 = some e.revision ∧
    w ≤ e.revision ∧
    ((e :: rest).Pairwise (fun a b => b.revision < a.revision) →
      w ∈ (e :: rest).map LogEntry.revision →
      ∀ x ∈ (filter_new_logentries (e :: rest) (some w)).2, w < x.revision) := by
  refine ⟨?_, hmono, ?_⟩
  · by_cases he : w = e.revision <;> simp [filter_new_logentries, he]
  · intro hsorted hmem x hx
    by_cases he : w = e.revision
    · simp [filter_new_logentries, he] at hx
    · rw [filter_new_logentries] at hx
      simp only [if_neg he] at hx
      rw [collect_new_eq_filter (e :: rest) w hsorted hmem] at hx
      rcases List.mem_filter.mp (List.mem_reverse.mp hx) with ⟨_, hdec⟩
      exact of_decide_eq_true hdec

/-- Witness for `c1_amended` at the concrete entry list `[rev 5]` with
watermark 5. -/
theorem c1_amended_witness :
    (5 : Nat) ≤ e5demo.revision ∧
    ((filter_new_logentries [e5demo] (some 5)).1 = some e5demo.revision ∧
     (5 : Nat) ≤ e5demo.revision ∧
     ([e5demo].Pairwise (fun a b => b.revision < a.revision) →
       5 ∈ [e5demo].map LogEntry.revision →
       ∀ x ∈ (filter_new_logentries [e5demo] (some 5)).2, 5 < x.revision)) :=
  ⟨by decide, c1_amended e5demo [] 5 (by decide)⟩

/-- C3: on a non-empty newest-first entry list with pairwise
strictly-decreasing revisions and a watermark equal to one of those
revisions, the filter returns exactly the entries strictly newer than the
watermark, reversed to oldest-first order, and sets the watermark to the
first (newest) entry's revision. -/
theorem c3_filter_delta (e : LogEntry) (rest : List LogEntry) (w : Nat)
    (hsorted : (e :: rest).Pairwise fun a b => b.revision < a.revision)
    (hmem : w ∈ (e :: rest).map LogEntry.revision) :
    filter_new_logentries (e :: rest) (some w) =
      (some e.revision,
       ((e :: rest).filter fun x => decide (w < x.revision)).reverse) := by
  by_cases he : w = e.revision
  · subst he
    rw [filter_new_logentries]
    simp only [if_pos rfl]
    rw [filter_gt_head_eq_nil e rest (List.pairwise_cons.mp hsorted).1]
    rfl
  · rw [filter_new_logentries]
    simp only [if_neg he]
    rw [collect_new_eq_filter (e :: rest) w hsorted hmem]

/-- Witness for `c3_filter_delta` at the entry list
`[rev 10, rev 5, rev 3]` with watermark 5. -/
theorem c3_filter_delta_witness :
    ([e10demo, e5demo, e3demo].Pairwise fun a b => b.revision < a.revision) ∧
    5 ∈ [e10demo, e5demo, e3demo].map LogEntry.revision ∧
    filter_new_logentries [e10demo, e5demo, e3demo] (some 5) =
      (some e10demo.revision,
       (([e10demo, e5demo, e3demo]).filter fun x => decide (5 < x.revision)).reverse) :=
  ⟨by decide, by decide,
   c3_filter_delta e10demo [e5demo, e3demo] 5 (by decide) (by decide)⟩

deriving instance DecidableEq for Except

/-- The one Python exception distinguished by the trigger model: the
`AttributeError` raised when `checksvn` reads `self._prefix` and the
attribute was never assigned. -/
inductive CheckError
  | attributeError
deriving DecidableEq

/-- The poller state consulted by `checksvn`: the `working` single-flight
guard and the `self._prefix` attribute slot.  `none` models the attribute
never having been assigned — `__init__` (line 174) initializes
`self._root`, not `self._prefix`, and the only assignments to
`self._prefix` are inside `_determine_prefix_2` (lines 270 and 278-280),
which always store a string (possibly the empty string, line 270). -/
structure CheckState where
  working : Bool
  pfx : Option String
deriving DecidableEq

/-- What one non-raising `checksvn` trigger does: whether it invoked the
external `svn info` command (`getProcessOutput` inside
`_determine_prefix`), whether it chained the poll pipeline (`_get_logs`
— the external `svn log` fetch — through `_parse_logs`,
`_get_new_logentries`, `_create_changes`, `_submit_changes`,
`_finished`), and the resulting `working` flag. -/
structure CheckResult where
  infoInvoked : Bool
  pipelineScheduled : Bool
  working : Bool
deriving DecidableEq

/-- `SvnSource.checksvn`: the source first evaluates
`if not self._prefix: d = self._determine_prefix()`.  Reading the
never-assigned attribute raises `AttributeError` there, before any
external command and before the guard is consulted; with `self._prefix`
assigned, a falsy (empty-string) prefix immediately runs the external
`svn info --xml` command.  Only afterwards does the source test
`if self.working: return d` — returning without scheduling pipeline work
— and otherwise it sets `self.working = True` and chains the pipeline
callbacks onto `d`. -/
def checksvn (st : CheckState) : Except CheckError CheckResult :=
  match st.pfx with
  | none => .error .attributeError
  | some p =>
    let infoInvoked := p.data.isEmpty
    if st.working then
      .ok ⟨infoInvoked, false, st.working⟩
    else
      .ok ⟨infoInvoked, true, true⟩

/-- C5 counterexample: at a state where a cycle is in flight
(`working = true`) and the cached prefix is the empty string — the value
`_determine_prefix_2` stores when the info response has no `<root>`
element (line 270) — the new trigger does invoke the external command
collaborator: the `svn info` query runs (`infoInvoked = true`) before
the `working` guard is consulted, contradicting "causes no additional
invocation of the external command collaborator (neither an info query
for prefix resolution nor a log fetch)". -/
theorem c5_counterexample :
    (⟨true, some ""⟩ : CheckState).working = true ∧
    checksvn ⟨true, some ""⟩ = .ok ⟨true, false, true⟩ := by
  decide

/-- C5 amended: a trigger arriving while a cycle is in flight never
schedules pipeline work — no log fetch, no second pipeline, and the
`working` guard stays set, so at most one poll pipeline is ever active —
but it is not always free of collaborator calls: with `self._prefix`
cached as the empty string the trigger re-invokes the `svn info` query
(and with a non-empty cached prefix it invokes nothing), because
`checksvn` calls `_determine_prefix()` before testing `self.working`;
and when `self._prefix` was never assigned the trigger raises
`AttributeError` at the prefix read, before invoking anything. -/
theorem c5_amended (st : CheckState) (h : st.working = true) :
    (st.pfx = none → checksvn st = .error .attributeError) ∧
    ∀ p, st.pfx = some p → checksvn st = .ok ⟨p.data.isEmpty, false, true⟩ := by
  constructor
  · intro hp
    rw [checksvn, hp]
  · intro p hp
    rw [checksvn, hp]
    simp [h]

/-- Witness for `c5_amended` at a state in flight with a resolved
non-empty prefix: there the second trigger raises nothing, invokes
neither collaborator command, and schedules no pipeline work. -/
theorem c5_amended_witness :
    (⟨true, some "proj"⟩ : CheckState).working = true ∧
    (((⟨true, some "proj"⟩ : CheckState).pfx = none →
        checksvn ⟨true, some "proj"⟩ = .error .attributeError) ∧
     ∀ p, (⟨true, some "proj"⟩ : CheckState).pfx = some p →
        checksvn ⟨true, some "proj"⟩ = .ok ⟨p.data.isEmpty, false, true⟩) :=
  ⟨by decide, c5_amended ⟨true, some "proj"⟩ (by decide)⟩

/-- Result of a `split_file` path policy in the embedding: a Python
`(branch, file)` tuple, Python `None` (the file is excluded), or an
uncaught `IndexError` from a subscript out of range. -/
inductive SplitResult
  | ok (branch : Option String) (file : String)
  | excluded
  | indexError
deriving DecidableEq

/-- `split_file_branches(path)`: `pieces = path.split('/')`; a leading
`trunk` piece yields `(None, '/'.join(pieces[1:]))`, a leading `branches`
piece yields `(pieces[1], '/'.join(pieces[2:]))` — where the `pieces[1]`
subscript raises `IndexError` when there is no second piece — and any
other leading piece returns `None`. -/
def split_file_branches (path : String) : SplitResult :=
  match pySplit path '/' with
  | [] => .indexError
  | p0 :: rest =>
    if p0 = "trunk" then .ok none (pyJoin "/" rest)
    else if p0 = "branches" then
      match rest with
      | p1 :: rest2 => .ok (some p1) (pyJoin "/" rest2)
      | [] => .indexError
    else .excluded

/-- C10: the branches policy is not total — on the path `"branches"`
(first piece `branches`, no second piece) the `pieces[1]` subscript is
out of range and the call raises instead of returning a pair or the
excluded result; every path splitting into a leading `trunk` piece maps
to `(None, rest)`, every path splitting into `branches` followed by a
name maps to `(name, rest)`, and every path with any other leading piece
is excluded. -/
theorem c10_split_branches :
    split_file_branches "branches" = .indexError ∧
    (∀ p rest, pySplit p '/' = "trunk" :: rest →
      split_file_branches p = .ok none (pyJoin "/" rest)) ∧
    (∀ p p1 rest2, pySplit p '/' = "branches" :: p1 :: rest2 →
      split_file_branches p = .ok (some p1) (pyJoin "/" rest2)) ∧
    (∀ p, pySplit p '/' = ["branches"] → split_file_branches p = .indexError) ∧
    (∀ p p0 rest, pySplit p '/' = p0 :: rest → p0 ≠ "trunk" → p0 ≠ "branches" →
      split_file_branches p = .excluded) := by
  refine ⟨by decide, ?_, ?_, ?_, ?_⟩
  · intro p rest h
    rw [split_file_branches, h]
    simp
  · intro p p1 rest2 h
    rw [split_file_branches, h]
    simp
  · intro p h
    rw [split_file_branches, h]
    simp
  · intro p p0 rest h h1 h2
    rw [split_file_branches, h]
    simp [h1, h2]

/-- Witness for `c10_split_branches` at the concrete paths
`"trunk/a/b"`, `"branches/1.5/x"` and `"tags/1.0/x"`. -/
theorem c10_split_branches_witness :
    pySplit "trunk/a/b" '/' = ["trunk", "a", "b"] ∧
    split_file_branches "trunk/a/b" = .ok none "a/b" ∧
    pySplit "branches/1.5/x" '/' = ["branches", "1.5", "x"] ∧
    split_file_branches "branches/1.5/x" = .ok (some "1.5") "x" ∧
    pySplit "tags/1.0/x" '/' = ["tags", "1.0", "x"] ∧
    split_file_branches "tags/1.0/x" = .excluded := by
  refine ⟨by decide, ?_, by decide, ?_, by decide, ?_⟩
  · exact c10_split_branches.2.1 "trunk/a/b" ["a", "b"] (by decide)
  · exact c10_split_branches.2.2.1 "branches/1.5/x" "1.5" ["x"] (by decide)
  · exact c10_split_branches.2.2.2.2 "tags/1.0/x" "tags" ["1.0", "x"]
      (by decide) (by decide) (by decide)

/-- The Python exceptions the embedded pipeline stages can raise: the
`AssertionError` raised by `_assert` (the spec's `InvariantViolation`),
and the `TypeError` raised by unpacking `None` into `(branch, final_path)`. -/
inductive PyError
  | assertionError
  | typeError
deriving DecidableEq

/-- `SvnSource._determine_prefix_2` after the XML parse: given the watched
`svnurl` and the text of the `<root>` element of the `svn info --xml`
response (`none` when the response has no `<root>` node), either caches
and returns the prefix or raises `AssertionError` via
`_assert(self.svnurl.startswith(root), ...)`. -/
def determine_prefix_2 (svnurl : String) (root : Option String) :
    Except PyError String :=
  match root with
  | none => .ok ""
  | some root =>
    if pyStartswith svnurl root then
      .ok (stripLeadingSlash (pyDrop svnurl (pyLen root)))
    else .error .assertionError

/-- C8: when the reported root is a prefix of the watched URL the cached
prefix is the URL with the root removed and one leading `/` stripped; the
prefix is empty when the URL equals the root and when the response has no
root element; and when the URL does not start with the root, resolution
fails with the assertion (`InvariantViolation`) and no prefix is produced. -/
theorem c8_resolve_root (url root : String) :
    determine_prefix_2 url none = .ok "" ∧
    (pyStartswith url root = true →
      determine_prefix_2 url (some root) =
        .ok (stripLeadingSlash (pyDrop url (pyLen root)))) ∧
    determine_prefix_2 url (some url) = .ok "" ∧
    (pyStartswith url root = false →
      determine_prefix_2 url (some root) = .error .assertionError) := by
  refine ⟨rfl, ?_, ?_, ?_⟩
  · intro h
    rw [determine_prefix_2, if_pos h]
  · have hself : pyStartswith url url = true := by
      simp [pyStartswith]
    rw [determine_prefix_2, if_pos hself]
    have hdrop : pyDrop url (pyLen url) = "" := by
      rw [pyDrop, pyLen, List.drop_length]
    rw [hdrop]
    rfl
  · intro h
    rw [determine_prefix_2, if_neg (by simp [h])]

/-- Witness for `c8_resolve_root` at root `"svn://host/repo"` and watched
URL `"svn://host/repo/proj/trunk"`, where the prefix resolves to
`"proj/trunk"`; and at a URL not starting with the root, where resolution
fails with the assertion. -/
theorem c8_resolve_root_witness :
    pyStartswith "svn://host/repo/proj/trunk" "svn://host/repo" = true ∧
    determine_prefix_2 "svn://host/repo/proj/trunk" (some "svn://host/repo") =
      .ok (stripLeadingSlash (pyDrop "svn://host/repo/proj/trunk" (pyLen "svn://host/repo"))) ∧
    stripLeadingSlash (pyDrop "svn://host/repo/proj/trunk" (pyLen "svn://host/repo")) =
      "proj/trunk" ∧
    determine_prefix_2 "svn://host/repo" (some "svn://host/repo") = .ok "" ∧
    pyStartswith "svn://other" "svn://host/repo" = false ∧
    determine_prefix_2 "svn://other" (some "svn://host/repo") = .error .assertionError := by
  refine ⟨by decide, ?_, by decide, ?_, by decide, ?_⟩
  · exact (c8_resolve_root "svn://host/repo/proj/trunk" "svn://host/repo").2.1 (by decide)
  · exact (c8_resolve_root "svn://host/repo" "x").2.2.1
  · exact (c8_resolve_root "svn://other" "svn://host/repo").2.2.2 (by decide)

/-- `SvnSource._transform_path(path)`: asserts that the path starts with
the cached prefix (`AssertionError` otherwise — the spec's
`InvariantViolation`), strips the prefix and one leading `/`, and then
executes `branch, final_path = self.split_file(relative_path)` — an
unpacking that raises `TypeError` when the injected `split_file` policy
returns `None` (there is no excluded-path check in this source). -/
def transform_path (pfx : String)
    (split_file : String → Option (Option String × String)) (path : String) :
    Except PyError (Option String × String) :=
  if pyStartswith path pfx then
    match split_file (stripLeadingSlash (pyDrop path (pyLen pfx))) with
    | some bf => .ok bf
    | none => .error .typeError
  else .error .assertionError

/-- A `Change` record as constructed by `_create_changes`:
`Change(who=author, files=..., comments=..., revision=..., when=...,
branch=...)`.  The `when` timestamp (produced by `time.strptime` /
`time.mktime`, real-time conversion) is not modelled; no claim concerns
it. -/
structure Change where
  who : String
  files : List String
  comments : String
  revision : Nat
  branch : Option String
deriving DecidableEq

/-- One step of the per-entry update in `_create_changes`:
`if not branch in branches: branches[branch] = [];
branches[branch].append(filename)`.  The Python `dict` contents are
modelled as an association list keyed by branch; each slot's file list is
in append (path) order, which real dicts do guarantee.  The slot order of
this representation is first-insertion order, but that order is only a
representation choice, never a program guarantee: the arbitrary CPython 2
hash-table iteration order of `for branch in branches:` (line 389; the
source's tab/space-mixed indentation makes it Python-2-only) is modelled
by the explicit `iter` argument of `create_changes_entry`. -/
def addToBranches (b : Option String) (f : String) :
    List (Option String × List String) → List (Option String × List String)
  | [] => [(b, [f])]
  | (b', fs) :: rest =>
    if b' = b then (b', fs ++ [f]) :: rest
    else (b', fs) :: addToBranches b f rest

/-- The path loop of `_create_changes` over one entry's `<path>` texts:
strip one leading `/`, run `_transform_path`, group the resulting
`(branch, filename)` pairs; a raised exception propagates. -/
def collectBranches (pfx : String)
    (split_file : String → Option (Option String × String)) :
    List String → List (Option String × List String) →
    Except PyError (List (Option String × List String))
  | [], branches => .ok branches
  | path :: rest, branches =>
    match transform_path pfx split_file (stripLeadingSlash path) with
    | .ok bf => collectBranches pfx split_file rest (addToBranches bf.1 bf.2 branches)
    | .error e => .error e

/-- An iteration order of the `branches` dict, as the CPython 2 hash
table chooses it when `for branch in branches:` (line 389) enumerates
the keys: a function yielding the dict's slots in some order.  Faithful
orders are exactly the permutations of the slots (each theorem assumes
this of the order it uses); CPython 2 guarantees no particular one — in
particular not insertion order. -/
abbrev DictIter :=
  List (Option String × List String) → List (Option String × List String)

/-- The per-entry body of `_create_changes`: group the entry's paths by
branch, then emit one `Change` per branch, in the order the dict
iteration yields the branches. -/
def create_changes_entry (iter : DictIter) (pfx : String)
    (split_file : String → Option (Option String × String)) (el : LogEntry) :
    Except PyError (List Change) :=
  match collectBranches pfx split_file el.paths [] with
  | .ok branches =>
      .ok ((iter branches).map fun bf => ⟨el.author, bf.2, el.msg, el.revision, bf.1⟩)
  | .error e => .error e

/-- `SvnSource._create_changes(new_logentries)`: entries oldest-first, one
block of per-branch `Change`s per entry; a raised exception propagates
and aborts the whole build. -/
def create_changes (iter : DictIter) (pfx : String)
    (split_file : String → Option (Option String × String)) :
    List LogEntry → Except PyError (List Change)
  | [] => .ok []
  | el :: rest =>
    match create_changes_entry iter pfx split_file el,
          create_changes iter pfx split_file rest with
    | .ok cs, .ok more => .ok (cs ++ more)
    | .error e, _ => .error e
    | .ok _, .error e => .error e

/-- The `(branch, filename)` pairs an entry's paths transform to, when
every transform succeeds (specification-side companion of
`collectBranches`, used to state what the grouping loop computes). -/
def transformPaths (pfx : String)
    (split_file : String → Option (Option String × String)) :
    List String → Except PyError (List (Option String × String))
  | [] => .ok []
  | path :: rest =>
    match transform_path pfx split_file (stripLeadingSlash path),
          transformPaths pfx split_file rest with
    | .ok bf, .ok ps => .ok (bf :: ps)
    | .error e, _ => .error e
    | .ok _, .error e => .error e

/-- The branch keys in order of first occurrence. -/
def firstOccur : List (Option String) → List (Option String)
  | [] => []
  | b :: rest => b :: (firstOccur rest).filter fun c => decide (c ≠ b)

/-- C6 (code bug): a changed path on which the injected path policy
returns `None` (excluded) is not silently discarded — the unpacking
`branch, final_path = self.split_file(relative_path)` raises `TypeError`,
and the whole change build for the cycle aborts with that error, contrary
to the constructor docstring "If the function returns None, the file is
ignored". -/
theorem c6_excluded_path_raises :
    transform_path "" (fun _ => none) "tags/1.0/x" = .error .typeError ∧
    ∀ iter : DictIter, create_changes iter "" (fun _ => none)
      [⟨7, "alice", "m", "d", ["tags/1.0/x"]⟩] = .error .typeError := by
  constructor
  · rfl
  · intro iter
    rfl

/-- `SvnSource._submit_changes(changes)`:
`for c in changes: self.parent.addChange(c)`.  The sink call is modelled
by a boolean-valued `addChange` (`false` = the call raised); the result
is the list of changes on which `addChange` was actually invoked and
whether the loop finished without an exception — an exception stops the
loop at the failing change and propagates. -/
def submit_changes (addChange : Change → Bool) :
    List Change → List Change × Bool
  | [] => ([], true)
  | c :: cs =>
    if addChange c then
      let r := submit_changes addChange cs
      (c :: r.1, r.2)
    else ([c], false)

/-- `SvnSource._finished(res)`: runs on both success and failure
(`addBoth`), asserts the `working` guard is set and clears it; `none`
models the `assert self.working` failing. -/
def finished (working : Bool) : Option Bool :=
  if working then some false else none

/-- The pure grouping loop of `_create_changes` on already-transformed
`(branch, filename)` pairs, threading the association-list `branches`
accumulator through `addToBranches`. -/
def groupPairsFrom : List (Option String × String) →
    List (Option String × List String) → List (Option String × List String)
  | [], acc => acc
  | q :: rest, acc => groupPairsFrom rest (addToBranches q.1 q.2 acc)

/-- `collectBranches` succeeds exactly when every path transforms, and
then computes the pure grouping of the transformed pairs. -/
lemma collectBranches_eq (pfx : String)
    (split_file : String → Option (Option String × String)) :
    ∀ (paths : List String) (ps : List (Option String × String))
      (acc : List (Option String × List String)),
      transformPaths pfx split_file paths = .ok ps →
      collectBranches pfx split_file paths acc = .ok (groupPairsFrom ps acc) := by
  intro paths
  induction paths with
  | nil =>
    intro ps acc h
    rw [transformPaths] at h
    cases h
    rfl
  | cons path rest ih =>
    intro ps acc h
    rw [transformPaths] at h
    cases htp : transform_path pfx split_file (stripLeadingSlash path) with
    | error e => rw [htp] at h; cases h
    | ok bf =>
      rw [htp] at h
      cases hrec : transformPaths pfx split_file rest with
      | error e => rw [hrec] at h; cases h
      | ok ps' =>
        rw [hrec] at h
        cases h
        rw [collectBranches, htp]
        exact ih ps' (addToBranches bf.1 bf.2 acc) hrec

/-- Peeling the head slot of the accumulator: the first branch collects
all its files in path order, the remaining pairs are grouped into the
rest of the accumulator. -/
lemma groupPairsFrom_cons :
    ∀ (ps : List (Option String × String)) (a : Option String × List String)
      (acc : List (Option String × List String)),
      groupPairsFrom ps (a :: acc) =
        (a.1, a.2 ++ (ps.filter fun q => decide (q.1 = a.1)).map Prod.snd) ::
          groupPairsFrom (ps.filter fun q => decide (q.1 ≠ a.1)) acc := by
  intro ps
  induction ps with
  | nil =>
    intro a acc
    simp [groupPairsFrom]
  | cons q rest ih =>
    intro a acc
    obtain ⟨b, f⟩ := q
    obtain ⟨a1, a2⟩ := a
    by_cases hab : a1 = b
    · subst hab
      have h1 : addToBranches a1 f ((a1, a2) :: acc) = (a1, a2 ++ [f]) :: acc := by
        simp [addToBranches]
      have h2 : List.filter (fun q => decide (q.1 = a1)) ((a1, f) :: rest) =
          (a1, f) :: rest.filter (fun q => decide (q.1 = a1)) := by
        simp [List.filter_cons]
      have h3 : List.filter (fun q => decide (q.1 ≠ a1)) ((a1, f) :: rest) =
          rest.filter (fun q => decide (q.1 ≠ a1)) := by
        simp [List.filter_cons]
      rw [groupPairsFrom, h1, h2, h3, ih ⟨a1, a2 ++ [f]⟩ acc]
      simp [List.append_assoc]
    · have hba : ¬ b = a1 := fun h => hab h.symm
      have h1 : addToBranches b f ((a1, a2) :: acc) = (a1, a2) :: addToBranches b f acc := by
        simp [addToBranches, hab]
      have h2 : List.filter (fun q => decide (q.1 = a1)) ((b, f) :: rest) =
          rest.filter (fun q => decide (q.1 = a1)) := by
        simp [List.filter_cons, hba]
      have h3 : List.filter (fun q => decide (q.1 ≠ a1)) ((b, f) :: rest) =
          (b, f) :: rest.filter (fun q => decide (q.1 ≠ a1)) := by
        simp [List.filter_cons, hba]
      rw [groupPairsFrom, h1, ih ⟨a1, a2⟩ (addToBranches b f acc), h2, h3]
      conv_rhs => rw [groupPairsFrom]

/-- Branch keys of filtered pairs are the filtered branch keys. -/
lemma map_fst_filter_ne (b : Option String) :
    ∀ (ps : List (Option String × String)),
      (ps.filter fun q => decide (q.1 ≠ b)).map Prod.fst =
        (ps.map Prod.fst).filter fun c => decide (c ≠ b) := by
  intro ps
  induction ps with
  | nil => rfl
  | cons q rest ih =>
    obtain ⟨c, f⟩ := q
    by_cases h : c = b
    · rw [List.filter_cons_of_neg (by simp [h]), List.map_cons,
        List.filter_cons_of_neg (by simp [h])]
      exact ih
    · rw [List.filter_cons_of_pos (by simp [h]), List.map_cons, List.map_cons,
        List.filter_cons_of_pos (by simp [h]), ih]

/-- Removing one key commutes with first-occurrence deduplication. -/
lemma firstOccur_filter (b : Option String) :
    ∀ (l : List (Option String)),
      firstOccur (l.filter fun c => decide (c ≠ b)) =
        (firstOccur l).filter fun c => decide (c ≠ b) := by
  intro l
  induction l with
  | nil => rfl
  | cons c rest ih =>
    by_cases h : c = b
    · subst h
      rw [List.filter_cons_of_neg (by simp), firstOccur,
        List.filter_cons_of_neg (by simp), ih, List.filter_filter]
      congr 1
      funext x
      by_cases hx : x = c <;> simp [hx]
    · rw [List.filter_cons_of_pos (by simp [h]), firstOccur, firstOccur, ih,
        List.filter_cons_of_pos (by simp [h]), List.filter_filter, List.filter_filter]
      congr 2
      funext x
      by_cases hx : x = c <;> by_cases hb : x = b <;> simp [hx, hb]

/-- Closed form of the grouping loop started on the empty `branches`
dict: one slot per branch in first-occurrence order, each slot holding
that branch's filenames in path order. -/
lemma groupPairsFrom_closed :
    ∀ (n : Nat) (ps : List (Option String × String)), ps.length ≤ n →
      groupPairsFrom ps [] =
        (firstOccur (ps.map Prod.fst)).map fun b =>
          (b, (ps.filter fun q => decide (q.1 = b)).map Prod.snd) := by
  intro n
  induction n with
  | zero =>
    intro ps hlen
    have hnil : ps = [] := List.length_eq_zero.mp (Nat.le_zero.mp hlen)
    subst hnil
    rfl
  | succ n ih =>
    intro ps hlen
    cases ps with
    | nil => rfl
    | cons q rest =>
      obtain ⟨b, f⟩ := q
      have hrest : (rest.filter fun q => decide (q.1 ≠ b)).length ≤ n :=
        le_trans (List.length_filter_le _ rest)
          (Nat.succ_le_succ_iff.mp (by simpa using hlen))
      rw [groupPairsFrom]
      have haddnil : addToBranches b f [] = [(b, [f])] := rfl
      rw [haddnil, groupPairsFrom_cons rest ⟨b, [f]⟩ [],
        ih (rest.filter fun q => decide (q.1 ≠ b)) hrest,
        map_fst_filter_ne b rest, firstOccur_filter b (rest.map Prod.fst),
        List.map_cons, firstOccur, List.map_cons]
      dsimp only
      congr 1
      · rw [List.filter_cons_of_pos (by simp)]
        simp
      · apply List.map_congr_left
        intro c hc
        have hcb : c ≠ b := by
          have := List.of_mem_filter hc
          simpa using this
        have hfil : ((rest.filter fun q => decide (q.1 ≠ b)).filter
            fun q => decide (q.1 = c)) = rest.filter fun q => decide (q.1 = c) := by
          rw [List.filter_filter]
          congr 1
          funext x
          by_cases hx : x.1 = c
          · simp [hx, hcb]
          · simp [hx]
        rw [hfil, List.filter_cons_of_neg (by simp [Ne.symm hcb])]

/-- Concrete path policy for the C7 evaluations: paths under `b/` belong
to branch `b`, everything else to the default branch. -/
def c7split (p : String) : Option (Option String × String) :=
  some (if pyStartswith p "b/" then (some "b", pyDrop p 2) else (none, p))

/-- Concrete entry for the C7 evaluations: three paths spanning branch
`b` and the default branch, branch `b` encountered first. -/
def c7entry : LogEntry := ⟨7, "alice", "msg", "d", ["b/x", "f", "b/y"]⟩

/-- Transformed pairs of `c7entry` under `c7split` with empty prefix. -/
def c7pairs : List (Option String × String) :=
  [(some "b", "x"), (none, "f"), (some "b", "y")]

/-- C7 counterexample: the program fixes no order between the two Change
records.  Under an admissible CPython 2 dict iteration order — here the
permutation enumerating the two `branches` slots in reverse — the
two-branch entry produces its records as [default branch, branch `b`],
which is not the first-encountered order [branch `b`, default branch]
the claim asserts (branch `b` is first touched by the entry's first
path). -/
theorem c7_counterexample :
    (List.reverse (groupPairsFrom c7pairs [])).Perm (groupPairsFrom c7pairs []) ∧
    firstOccur (c7pairs.map Prod.fst) = [some "b", none] ∧
    create_changes List.reverse "" c7split [c7entry] = .ok
      [⟨"alice", ["f"], "msg", 7, none⟩,
       ⟨"alice", ["x", "y"], "msg", 7, some "b"⟩] ∧
    create_changes List.reverse "" c7split [c7entry] ≠ .ok
      [⟨"alice", ["x", "y"], "msg", 7, some "b"⟩,
       ⟨"alice", ["f"], "msg", 7, none⟩] := by
  decide

/-- C7 amended: a single log entry whose paths all transform successfully
and whose branches in first-encounter order are exactly `[b1, b2]`
produces, under every admissible dict iteration order (any permutation of
the grouped slots), exactly the two per-branch `Change` records — each
carrying only the file paths its own branch received, in path order —
but in the unspecified order the dict iteration yields the two branches,
not necessarily first-encounter order. -/
theorem c7_amended (iter : DictIter) (pfx : String)
    (split_file : String → Option (Option String × String)) (el : LogEntry)
    (ps : List (Option String × String)) (b1 b2 : Option String)
    (hps : transformPaths pfx split_file el.paths = .ok ps)
    (hbr : firstOccur (ps.map Prod.fst) = [b1, b2])
    (hperm : (iter (groupPairsFrom ps [])).Perm (groupPairsFrom ps [])) :
    create_changes iter pfx split_file [el] = .ok
      ((iter (groupPairsFrom ps [])).map fun bf =>
        (⟨el.author, bf.2, el.msg, el.revision, bf.1⟩ : Change)) ∧
    ((iter (groupPairsFrom ps [])).map fun bf =>
        (⟨el.author, bf.2, el.msg, el.revision, bf.1⟩ : Change)).Perm
      [⟨el.author, (ps.filter fun q => decide (q.1 = b1)).map Prod.snd,
        el.msg, el.revision, b1⟩,
       ⟨el.author, (ps.filter fun q => decide (q.1 = b2)).map Prod.snd,
        el.msg, el.revision, b2⟩] := by
  have hc := collectBranches_eq pfx split_file el.paths ps [] hps
  have hg := groupPairsFrom_closed ps.length ps (le_refl ps.length)
  constructor
  · rw [create_changes, create_changes_entry, hc]
    simp [create_changes]
  · have hmap := hperm.map fun bf =>
      (⟨el.author, bf.2, el.msg, el.revision, bf.1⟩ : Change)
    have hG : (groupPairsFrom ps []).map (fun bf =>
        (⟨el.author, bf.2, el.msg, el.revision, bf.1⟩ : Change)) =
        [⟨el.author, (ps.filter fun q => decide (q.1 = b1)).map Prod.snd,
          el.msg, el.revision, b1⟩,
         ⟨el.author, (ps.filter fun q => decide (q.1 = b2)).map Prod.snd,
          el.msg, el.revision, b2⟩] := by
      rw [hg, hbr]
      rfl
    rw [hG] at hmap
    exact hmap

/-- Witness for `c7_amended` at the concrete two-branch entry with the
identity iteration order: exactly two changes, branch `b` holding files
`x`, `y` and the default branch holding file `f`. -/
theorem c7_amended_witness :
    transformPaths "" c7split c7entry.paths = .ok c7pairs ∧
    firstOccur (c7pairs.map Prod.fst) = [some "b", none] ∧
    (id (groupPairsFrom c7pairs [])).Perm (groupPairsFrom c7pairs []) ∧
    (create_changes id "" c7split [c7entry] = .ok
      ((id (groupPairsFrom c7pairs [])).map fun bf =>
        (⟨c7entry.author, bf.2, c7entry.msg, c7entry.revision, bf.1⟩ : Change)) ∧
     ((id (groupPairsFrom c7pairs [])).map fun bf =>
        (⟨c7entry.author, bf.2, c7entry.msg, c7entry.revision, bf.1⟩ : Change)).Perm
       [⟨c7entry.author, (c7pairs.filter fun q => decide (q.1 = some "b")).map Prod.snd,
         c7entry.msg, c7entry.revision, some "b"⟩,
        ⟨c7entry.author, (c7pairs.filter fun q => decide (q.1 = none)).map Prod.snd,
         c7entry.msg, c7entry.revision, none⟩]) :=
  ⟨by decide, by decide, by decide,
   c7_amended id "" c7split c7entry c7pairs (some "b") none
     (by decide) (by decide) (by decide)⟩

/-- C9 counterexample: with a sink that raises on the first change of a
two-change batch, the second change is never attempted — the loop in
`_submit_changes` stops at the exception instead of attempting the rest
of the batch. -/
def c9sink (c : Change) : Bool :=
  decide (c.revision ≠ 1)

/-- First change of the C9 batch; the sink raises on it. -/
def c9c1 : Change := ⟨"alice", ["f1"], "m1", 1, none⟩

/-- Second change of the C9 batch; the sink would accept it. -/
def c9c2 : Change := ⟨"alice", ["f2"], "m2", 2, none⟩

/-- C9 counterexample: submitting the batch `[c9c1, c9c2]` with a sink
that fails on `c9c1` attempts only `c9c1`; `c9c2` — a remaining change of
the batch — is never attempted, contradicting "every remaining Change in
the batch is still attempted". -/
theorem c9_counterexample :
    c9sink c9c1 = false ∧
    (submit_changes c9sink [c9c1, c9c2]).1 = [c9c1] ∧
    c9c2 ∉ (submit_changes c9sink [c9c1, c9c2]).1 := by
  decide

/-- C9 amended: a failing submit call aborts the remainder of the batch —
the changes before the failure and the failing change itself are the only
submissions attempted, the failed change is not retried, the loop reports
the failure, and the cycle still terminates: `_finished` (attached with
`addBoth`) observes the in-flight guard set and clears it. -/
theorem c9_amended (sink : Change → Bool) (pre : List Change) (c : Change)
    (post : List Change) (hpre : ∀ x ∈ pre, sink x = true) (hc : sink c = false) :
    submit_changes sink (pre ++ c :: post) = (pre ++ [c], false) ∧
    finished true = some false := by
  refine ⟨?_, rfl⟩
  induction pre with
  | nil =>
    simp only [List.nil_append, submit_changes, hc, if_false]
    rfl
  | cons p rest ih =>
    have hp : sink p = true := hpre p (List.mem_cons_self p rest)
    have hrest : ∀ x ∈ rest, sink x = true :=
      fun x hx => hpre x (List.mem_cons_of_mem p hx)
    rw [List.cons_append, submit_changes, if_pos hp]
    simp [ih hrest]

/-- Witness for `c9_amended` at the batch `[c9c2, c9c1, c9c2]` with the
concrete sink: only `[c9c2, c9c1]` is attempted and the loop fails. -/
theorem c9_amended_witness :
    c9sink c9c2 = true ∧ c9sink c9c1 = false ∧
    (submit_changes c9sink ([c9c2] ++ c9c1 :: [c9c2]) = ([c9c2] ++ [c9c1], false) ∧
     finished true = some false) :=
  ⟨by decide, by decide,
   c9_amended c9sink [c9c2] c9c1 [c9c2] (by decide) (by decide)⟩
